import Mathlib

/-
  Verification development for the etfpy repository (valentinlemaire/pyetf).

  The Python sources under src are shallowly embedded below:
  - string manipulation is modelled over the character list of a String so
    that every helper is a structurally recursive, kernel-evaluable function
    with Python semantics (lower, upper, strip, split, replace, substring);
  - a BeautifulSoup document is a finite tree of element and text nodes,
    with find, find_all, attribute access, class matching and text
    extraction modelled over a preorder traversal;
  - a Python dict is an insertion-ordered association list with
    last-write-wins update semantics;
  - Python code that can raise is embedded in Except String, with the
    exception name as the error payload; code with no raising operation is
    embedded as a total function.
-/

/-! ## Python-faithful string primitives (kernel evaluable) -/

def lowerChar (c : Char) : Char :=
  if 'A' ≤ c ∧ c ≤ 'Z' then Char.ofNat (c.toNat + 32) else c

def upperChar (c : Char) : Char :=
  if 'a' ≤ c ∧ c ≤ 'z' then Char.ofNat (c.toNat - 32) else c

def pyLower (s : String) : String := ⟨s.data.map lowerChar⟩

def pyUpper (s : String) : String := ⟨s.data.map upperChar⟩

def isSpaceChar (c : Char) : Bool :=
  c = ' ' || c = '\t' || c = '\n' || c = '\r' || c = '\x0b' || c = '\x0c'

def dropSpaces : List Char → List Char
  | [] => []
  | c :: cs => if isSpaceChar c then dropSpaces cs else c :: cs

def pyStrip (s : String) : String :=
  ⟨dropSpaces (dropSpaces s.data.reverse).reverse⟩

def isPrefixL : List Char → List Char → Bool
  | [], _ => true
  | _ :: _, [] => false
  | p :: ps, c :: cs => p = c && isPrefixL ps cs

def isSubL (pat : List Char) : List Char → Bool
  | [] => isPrefixL pat []
  | c :: cs => isPrefixL pat (c :: cs) || isSubL pat cs

def containsSub (hay pat : String) : Bool := isSubL pat.data hay.data

def containsCI (hay pat : String) : Bool := containsSub (pyLower hay) (pyLower pat)

def splitAux (sep : List Char) : Nat → List Char → List Char → List (List Char)
  | _, acc, [] => [acc.reverse]
  | 0, acc, rest => [acc.reverse ++ rest]
  | fuel + 1, acc, c :: cs =>
    if isPrefixL sep (c :: cs) then
      acc.reverse :: splitAux sep fuel [] ((c :: cs).drop sep.length)
    else
      splitAux sep fuel (c :: acc) cs

def pySplit (s sep : String) : List String :=
  (splitAux sep.data s.data.length [] s.data).map fun l => ⟨l⟩

def replaceAux (pat rep : List Char) : Nat → List Char → List Char
  | _, [] => []
  | 0, rest => rest
  | fuel + 1, c :: cs =>
    if isPrefixL pat (c :: cs) then
      rep ++ replaceAux pat rep fuel ((c :: cs).drop pat.length)
    else
      c :: replaceAux pat rep fuel cs

def pyReplace (s pat rep : String) : String :=
  if pat.data.isEmpty then s else ⟨replaceAux pat.data rep.data s.data.length s.data⟩

def pyStartsWith (s p : String) : Bool := isPrefixL p.data s.data

def joinSep (sep : String) : List String → String
  | [] => ""
  | [x] => x
  | x :: y :: rest => x ++ sep ++ joinSep sep (y :: rest)

def joinAll : List String → String
  | [] => ""
  | [x] => x
  | x :: rest => x ++ joinAll rest

/-! ## Python dict model: insertion-ordered pairs, last write wins -/

inductive PyVal where
  | s (v : String)
  | i (v : Int)
  | d (m : List (String × PyVal))

abbrev Dict := List (String × PyVal)

/-- Setting one key of a Python dict: an existing key keeps its position and
gets the new value, a new key is appended at the end. -/
def dictSet : Dict → String → PyVal → Dict
  | [], k, v => [(k, v)]
  | (k1, v1) :: rest, k, v =>
    if k1 = k then (k, v) :: rest else (k1, v1) :: dictSet rest k v

/-- Python dict built from a sequence of key-value pairs, as in dict(pairs)
and dict comprehensions: later duplicates overwrite earlier ones. -/
def dictFromPairs (l : List (String × PyVal)) : Dict :=
  l.foldl (fun d p => dictSet d p.1 p.2) []

/-- Python d.update(u): the pairs of u are written into d in order. -/
def dictUpdate (d u : Dict) : Dict :=
  u.foldl (fun acc p => dictSet acc p.1 p.2) d

/-- Lookup returning the first binding of a key. On dicts built by dictSet
the keys are unique, so this is the Python dict lookup. -/
def dictGet : Dict → String → Option PyVal
  | [], _ => none
  | (k1, v1) :: rest, k => if k = k1 then some v1 else dictGet rest k

/-- Lookup returning the last binding of a key, for raw pair sequences in
which a key may repeat (Python dict construction keeps the last one). -/
def dictGetLast : Dict → String → Option PyVal
  | [], _ => none
  | (k1, v1) :: rest, k =>
    match dictGetLast rest k with
    | some v => some v
    | none => if k = k1 then some v1 else none

def optOr (a b : Option PyVal) : Option PyVal :=
  match a with
  | some v => some v
  | none => b

def keysNodup (d : Dict) : Prop := (d.map Prod.fst).Nodup

/-! ## Parsed HTML document model (BeautifulSoup tree) -/

inductive Node where
  | text (s : String)
  | elem (tag : String) (attrs : List (String × String)) (children : List Node)

def attrGet : List (String × String) → String → Option String
  | [], _ => none
  | (k1, v1) :: rest, k => if k = k1 then some v1 else attrGet rest k

def Node.getAttr : Node → String → Option String
  | .text _, _ => none
  | .elem _ attrs _, k => attrGet attrs k

def Node.childrenL : Node → List Node
  | .text _ => []
  | .elem _ _ cs => cs

def Node.isElem : Node → Bool
  | .text _ => false
  | .elem _ _ _ => true

def classTokensOf (s : String) : List String :=
  (pySplit s " ").filter (fun t => t ≠ "")

/-- Conditions a bs4 find call puts on attributes: exact attribute value,
class token membership (full string match when the wanted value itself has a
space, as bs4 does for multi-valued class attributes), and the regex
conditions of the client reduced to their substring tests. -/
inductive AttrCond where
  | attrIs (k v : String)
  | classIs (v : String)
  | idContainsCI (s : String)
  | classContains (s : String)

def condMatches (n : Node) : AttrCond → Bool
  | .attrIs k v =>
    match n.getAttr k with
    | none => false
    | some w => w = v
  | .classIs v =>
    match n.getAttr "class" with
    | none => false
    | some cv =>
      if (containsSub v " ") then cv = v else (classTokensOf cv).contains v
  | .idContainsCI s =>
    match n.getAttr "id" with
    | none => false
    | some iv => containsCI iv s
  | .classContains s =>
    match n.getAttr "class" with
    | none => false
    | some cv => containsSub cv s

def nodeMatches (tags : List String) (conds : List AttrCond) (n : Node) : Bool :=
  match n with
  | .text _ => false
  | .elem t _ _ => (tags.isEmpty || tags.contains t) && conds.all (condMatches n)

/-- Preorder document-order traversal of a subtree, the node itself first. -/
def Node.preorder : Node → List Node
  | .text s => [.text s]
  | .elem t a cs => .elem t a cs :: go cs
where go : List Node → List Node
  | [] => []
  | c :: cs => c.preorder ++ go cs

/-- All nodes strictly below a node in document order; a bs4 find searches
these and does not match the node it is called on. -/
def descendantsOf (n : Node) : List Node := Node.preorder.go n.childrenL

def find1 (n : Node) (tags : List String) (conds : List AttrCond) : Option Node :=
  (descendantsOf n).find? (nodeMatches tags conds)

def findAll (n : Node) (tags : List String) (conds : List AttrCond) : List Node :=
  (descendantsOf n).filter (nodeMatches tags conds)

def stringsOf (n : Node) : List String :=
  (n.preorder).filterMap (fun m =>
    match m with
    | .text s => some s
    | .elem _ _ _ => none)

/-- The text property of a bs4 tag: concatenation of every string below it. -/
def textContent (n : Node) : String := joinAll (stringsOf n)

/-- bs4 get_text(sep, strip=True): each string stripped, empties dropped,
the rest joined with the separator. -/
def getTextSep (n : Node) (sep : String) : String :=
  joinSep sep (((stringsOf n).map pyStrip).filter (fun t => t ≠ ""))

def elemChildrenOf (n : Node) : List Node := (n.childrenL).filter Node.isElem

/-- Nodes of a subtree, in document order, that are the second element child
of their parent: the match set of the CSS selector :nth-child(2). -/
def secondChildHits : Node → List Node
  | .text _ => []
  | .elem _ _ cs => go 0 cs
where go : Nat → List Node → List Node
  | _, [] => []
  | seen, .text _ :: cs => go seen cs
  | seen, .elem t a k :: cs =>
    (if seen = 1 then [Node.elem t a k] else []) ++
      secondChildHits (.elem t a k) ++ go (seen + 1) cs

def selectSecondChild (n : Node) : Option Node := (secondChildHits n).head?

/-! ## Section extractors (etfpy/client/etf_client.py) -/

def baseUrl : String := "https://etfdb.com"

def el (tag : String) (attrs : List (String × String)) (children : List Node) : Node :=
  .elem tag attrs children

/-- Modelled from the spec: the helper handle_spans of the utils module is
not under src. It turns the spans of one profile row into one label-value
pair, or nothing when the row does not split into exactly two fields. -/
def handle_spans (spans : List Node) : Option (String × String) :=
  match spans with
  | [a, b] => some (pyStrip (textContent a), pyStrip (textContent b))
  | _ => none

/-- Modelled from the spec: the helper handle_nth_child of the utils module
is not under src. It reads the stripped text of the n-th element child of a
node, with an empty string as the default. -/
def handle_nth_child (n : Node) (i : Nat) : String :=
  match (elemChildrenOf n).get? (i - 1) with
  | some c => pyStrip (textContent c)
  | none => ""

/-- Modelled from the spec: the helper handle_find_all_rows of the utils
module is not under src. It builds one label-value pair per row from the
first two element children of the row, skipping rows with fewer than two. -/
def handle_find_all_rows (rows : List Node) : Dict :=
  dictFromPairs (rows.filterMap (fun r =>
    match elemChildrenOf r with
    | a :: b :: _ => some (pyStrip (textContent a), PyVal.s (pyStrip (textContent b)))
    | _ => none))

/-- Modelled from the spec: the helper chunkify of the utils module is not
under src. With chunk size two it yields the consecutive pairs of a list,
cross-zipped with the category names by the valuation extractor. -/
def chunkify2 {α : Type} : List α → List (α × α)
  | [] => []
  | [_] => []
  | a :: b :: rest => (a, b) :: chunkify2 rest

/-- ETFDBClient profile-container: label-value pairs of the profile rows,
empty when the container is missing. -/
def profile_container (doc : Node) : Dict :=
  match find1 doc ["div"] [.classIs "profile-container"] with
  | none => []
  | some pc =>
    dictFromPairs (((findAll pc ["div"] [.classIs "row"]).filterMap (fun r =>
      handle_spans (findAll r ["span"] []))).map (fun p => (p.1, PyVal.s p.2)))

/-- ETFDBClient trading-data: list items of the data-trading container as a
dict, blank values filtered out; empty when the container is missing. -/
def trading_data (doc : Node) : Dict :=
  match find1 doc ["div"] [.classIs "data-trading bar-charts-table"] with
  | none => []
  | some tc =>
    (dictFromPairs ((findAll tc ["li"] []).map (fun li =>
      (handle_nth_child li 1, PyVal.s (handle_nth_child li 2))))).filter
        (fun p => match p.2 with
          | PyVal.s v => v != ""
          | _ => true)

/-- The primary ticker-body lookup with its regex-id fallback. -/
def ticker_body_of (doc : Node) : Option Node :=
  match find1 doc ["div"] [.attrIs "id" "etf-ticker-body"] with
  | some tb => some tb
  | none => find1 doc ["div"] [.idContainsCI "etf-ticker"]

/-- ETFDBClient asset-categories. The source guards with len(theme) smaller
than one and then reads theme at index one, so exactly one ticker-assets
container raises an IndexError. -/
def asset_categories (doc : Node) : Except String Dict :=
  match ticker_body_of doc with
  | none => .ok []
  | some tb =>
    let theme := findAll tb ["div"] [.classIs "ticker-assets"]
    if theme.isEmpty then .ok []
    else
      match theme.get? 1 with
      | none => .error "IndexError"
      | some t => .ok (handle_find_all_rows (findAll t ["div"] [.classIs "row"]))

/-- ETFDBClient factset-classification: rows of the factset container, empty
when the container is missing. -/
def factset_classification (doc : Node) : Dict :=
  match find1 doc ["div"] [.attrIs "id" "factset-classification"] with
  | none => []
  | some fc => handle_find_all_rows (findAll fc ["tr"] [])

/-- ETFDBClient valuation: needs the dividend tab, the valuation section and
at least two row divs, otherwise empty; then cross-zips the category names
of the second row with consecutive pairs of its centered texts. The regex
h4 center* of the source reduces to the substring test for h4 cente. -/
def valuation (doc : Node) : Dict :=
  match find1 doc ["div"] [.attrIs "id" "etf-ticker-valuation-dividend_tab"] with
  | none => []
  | some vc =>
    match find1 vc ["div"] [.attrIs "id" "valuation"] with
    | none => []
    | some vs =>
      let rows := findAll vs ["div"] [.classIs "row"]
      if rows.length < 2 then []
      else
        -- the guard above keeps the index-one access of the source in range
        let row1 := (rows.get? 1).getD (Node.text "")
        let names := (findAll row1 ["div"] [.classContains "h4 cente"]).map
          (fun i => pyStrip (textContent i))
        let values := (findAll row1 ["div"] [.classIs "text-center"]).map textContent
        (List.zip names (chunkify2 values)).foldl
          (fun acc p =>
            let inner : List (String × PyVal) :=
              match dictGet acc p.2.1 with
              | some (.d m) => m
              | _ => []
            dictSet acc p.2.1 (.d (dictSet inner p.1 (.s p.2.2)))) []

/-- The anchor href of one holdings row: an absent anchor is the TypeError
branch the source catches into an empty string, while an anchor without an
href raises a KeyError the source does not catch. -/
def row_href (record : Node) : Except String String :=
  match find1 record ["a"] [] with
  | none => Except.ok ""
  | some a =>
    match a.getAttr "href" with
    | none => Except.error "KeyError"
    | some h => Except.ok h

/-- One holdings row: the first three cell texts under the keys Symbol,
Holding and Share, and the anchor href under Url, made absolute against the
base address when it does not already contain it. -/
def holdings_row (record : Node) : Except String Dict :=
  let record_texts := findAll record ["td"] []
  match row_href record with
  | .error e => .error e
  | .ok holding_url =>
    let texts := dictFromPairs (List.zipWith (fun k td => (k, PyVal.s (textContent td)))
      ["Symbol", "Holding", "Share"] record_texts)
    let holding_url2 := if containsSub holding_url baseUrl then holding_url
      else baseUrl ++ holding_url
    .ok (dictSet texts "Url"
      (.s (if holding_url2 = baseUrl then "" else holding_url2)))

/-- ETFDBClient holdings. A missing holding section or table body becomes an
AttributeError that the source catches into an empty list; any error raised
by a row propagates out of the loop uncaught. -/
def holdings (doc : Node) : Except String (List Dict) :=
  match find1 doc ["div"] [.attrIs "id" "holding_section"] with
  | none => .ok []
  | some hs =>
    match find1 hs ["tbody"] [] with
    | none => .ok []
    | some tbody => (findAll tbody ["tr"] []).mapM holdings_row

/-- Python dict built from a list of key-value sequences, as dict(pairs)
does for the technicals and volatility metrics: any element that does not
split into exactly two fields raises a ValueError. -/
def pyDictPairs : List (List String) → Except String (List (String × String))
  | [] => .ok []
  | l :: rest =>
    match l with
    | [k, v] => do
      let tail ← pyDictPairs rest
      .ok ((k, v) :: tail)
    | _ => .error "ValueError"

def volatility_metrics (tc : Node) : List (List String) :=
  (findAll tc ["div"] [.classContains "row relative-metric"]).map
    (fun x => pySplit (pyStrip (textContent x)) "\n\n\n\n")

/-- ETFDBClient volatility: splits each relative-metric block on a four
newline separator and builds a dict of the results. -/
def volatility (doc : Node) : Except String Dict :=
  match find1 doc ["div"] [.attrIs "id" "technicals-collapse"] with
  | none => .ok []
  | some tc => do
    let pairs ← pyDictPairs (volatility_metrics tc)
    return dictFromPairs (pairs.map (fun p => (p.1, PyVal.s p.2)))

def technicals_rows (tc : Node) : List (List String) :=
  (findAll tc ["ul"] [.classIs "list-unstyled"]).flatMap
    (fun s => (findAll s ["li"] []).map (fun li => pySplit (pyStrip (textContent li)) "\n"))

/-- ETFDBClient technicals: splits each list item on a newline and builds a
dict of the results. The narrow except clauses inside the loop catch only
KeyError and TypeError, not the ValueError of the final dict call. -/
def technicals (doc : Node) : Except String Dict :=
  match find1 doc ["div"] [.attrIs "id" "technicals-collapse"] with
  | none => .ok []
  | some tc => do
    let pairs ← pyDictPairs (technicals_rows tc)
    return dictFromPairs (pairs.map (fun p => (p.1, PyVal.s p.2)))

def exceptMapM {α β : Type} (f : α → Except String β) : List α → Except String (List β)
  | [] => .ok []
  | a :: as => do
    let b ← f a
    let bs ← exceptMapM f as
    .ok (b :: bs)

/-- ETFDBClient exposure. The parse of the embedded JSON attribute is the
Python json.loads of the standard library, abstracted as the parameter
parse_series returning the name and first data point of each series. The
titles are read before any series is parsed, and a chart without the
data-title attribute raises an AttributeError on the None value; a chart
without the data-chart-series attribute raises a TypeError in json.loads. -/
def exposure (parse_series : String → Except String (List (String × Int)))
    (doc : Node) : Except String Dict :=
  let charts_data := findAll doc ["table"] [.classIs "chart base-table"]
  if charts_data.isEmpty then
    .ok [("Data", .s "Region, country, sector breakdown data not found")]
  else do
    let chart_series := charts_data.map (fun x => x.getAttr "data-chart-series")
    let chart_titles ← exceptMapM (fun x =>
      match Node.getAttr x "data-title" with
      | none => Except.error "AttributeError"
      | some t => Except.ok (pyReplace t "<br>" " ")) charts_data
    let chart_dicts ← exceptMapM (fun s =>
      match s with
      | none => Except.error "TypeError"
      | some str => parse_series str) chart_series
    let parse_data := chart_dicts.map (fun cd =>
      dictFromPairs (cd.map (fun p => (p.1, PyVal.i p.2))))
    return dictFromPairs (List.zipWith (fun t p => (t, PyVal.d p)) chart_titles parse_data)

/-! ## Description extractor -/

def descCandidates (doc : Node) : List (Option Node) :=
  [find1 doc ["div"] [.attrIs "id" "full-content"],
   find1 doc ["div"] [.attrIs "id" "etf-description"],
   find1 doc ["div"] [.attrIs "id" "etf-desc"],
   find1 doc ["div"] [.classIs "etf-description"],
   find1 doc ["div"] [.classIs "description"],
   find1 doc ["section"] [.attrIs "id" "description"],
   find1 doc ["div"] [.classIs "etf-summary"]]

def firstCandText : List (Option Node) → Option String
  | [] => none
  | none :: rest => firstCandText rest
  | some c :: rest =>
    let t := getTextSep c " "
    if t = "" then firstCandText rest else some t

def isDescHeading (n : Node) : Bool :=
  nodeMatches ["h2", "h3", "h4"] [] n &&
    containsSub (pyLower (getTextSep n " ")) "description"

/-- The heading stage of the description extractor, walking the document
order: at each heading whose title mentions description, find-next locates
the first p or div among the strictly later nodes. -/
def descHeadingScan : List Node → Option String
  | [] => none
  | n :: rest =>
    if isDescHeading n then
      match rest.find? (nodeMatches ["p", "div"] []) with
      | some block =>
        let t := getTextSep block " "
        if t = "" then descHeadingScan rest else some t
      | none => descHeadingScan rest
    else descHeadingScan rest

def metaContentOf (m : Node) : Option String :=
  match m.getAttr "content" with
  | none => none
  | some c =>
    if c = "" then none
    else
      let t := pyStrip c
      if t = "" then none else some t

def descMetas (doc : Node) : List (Option Node) :=
  [find1 doc ["meta"] [.attrIs "name" "description"],
   find1 doc ["meta"] [.attrIs "property" "og:description"],
   find1 doc ["meta"] [.attrIs "name" "twitter:description"]]

def descMetaLoop : List (Option Node) → Option String
  | [] => none
  | none :: rest => descMetaLoop rest
  | some m :: rest =>
    match metaContentOf m with
    | some t => some t
    | none => descMetaLoop rest

/-- ETFDBClient description: candidate containers first, then blocks next to
a description heading, then the three meta tags, else the empty string. -/
def description (doc : Node) : String :=
  match firstCandText (descCandidates doc) with
  | some t => t
  | none =>
    match descHeadingScan (descendantsOf doc) with
    | some t => t
    | none => (descMetaLoop (descMetas doc)).getD ""

/-! ## Record assembler (ETFDBClient basic-info) -/

def injectDict (ticker url : String) : Dict := [("Symbol", .s ticker), ("Url", .s url)]

def pageBodyRows (doc : Node) : List Node :=
  match ticker_body_of doc with
  | none => []
  | some tb =>
    match find1 tb ["div"] [.classIs "row"] with
    | none => []
    | some etb => findAll etb ["div"] [.classIs "row"]

/-- One row of the page-body loop of basic-info: the key from the first
child, the value from the second child, with the href of a contained anchor
made absolute for keys other than the home page; the narrow except falls
back to the stripped text of the value node. -/
def pageBodyPair (row : Node) : Option (String × PyVal) :=
  let key := handle_nth_child row 1
  let value_text :=
    match selectSecondChild row with
    | none => ""
    | some v =>
      match find1 v ["a"] [] with
      | none => pyStrip (textContent v)
      | some a =>
        match a.getAttr "href" with
        | none => pyStrip (textContent v)
        | some href =>
          if href ≠ "" ∧ key ≠ "ETF Home Page" then
            (if pyStartsWith href baseUrl then href else baseUrl ++ href)
          else href
  if key ≠ "" then some (key, .s value_text) else none

def pageBodyPairs (doc : Node) : List (String × PyVal) :=
  (pageBodyRows doc).filterMap pageBodyPair

/-- The basic-info dict before the section merges: the injected Symbol and
Url keys, then the page-body pairs written over them in order. -/
def pageBase (doc : Node) (ticker url : String) : Dict :=
  dictUpdate (injectDict ticker url) (pageBodyPairs doc)

/-- ETFDBClient basic-info: the fixed merge order of the record assembler.
Injected pairs, page body, profile, valuation, trading data, asset
categories, classification; each update overwrites earlier keys. -/
def basic_info (doc : Node) (ticker url : String) : Except String Dict := do
  let d1 := dictUpdate (pageBase doc ticker url) (profile_container doc)
  let d2 := dictUpdate d1 (valuation doc)
  let d3 := dictUpdate d2 (trading_data doc)
  let ac ← asset_categories doc
  let d4 := dictUpdate d3 ac
  return dictUpdate d4 (factset_classification doc)

/-! ## Resilient fetcher (ETFDBClient fetch-html and try-cloudscraper) -/

/-- One fetch attempt as the fetcher observes it: the primary response and
what the alternate cloudscraper engine would yield for the same address.
A raising or unavailable alternate engine is altAvailable set to false. -/
structure FetchCase where
  status : Nat
  reason : String
  text : String
  altAvailable : Bool
  altStatus : Nat
  altText : String
deriving DecidableEq

inductive FetchOutcome where
  | ok (t : String)
  | httpError (status : Nat) (reason : String)
  | blockedError
deriving DecidableEq

def block_markers : List String :=
  ["Access Denied", "Pardon Our Interruption", "verify you are human",
   "captcha", "cloudflare", "distil"]

def is_blocked_text (t : String) : Bool :=
  block_markers.any (fun marker => containsCI t marker)

/-- ETFDBClient try-cloudscraper: empty string when the engine is missing,
the request raises, or the status is not 200; else the response text. -/
def try_cloudscraper (c : FetchCase) : String :=
  if !c.altAvailable then ""
  else if c.altStatus ≠ 200 then ""
  else c.altText

/-- ETFDBClient fetch-html, paired with the number of times the alternate
engine is invoked. A non-200 primary status raises; a blocked text escalates
to the alternate engine once and raises the blocked error only when that
engine yields an empty result. -/
def fetch_html (c : FetchCase) : FetchOutcome × Nat :=
  if c.status ≠ 200 then (.httpError c.status c.reason, 0)
  else if is_blocked_text c.text then
    let t := try_cloudscraper c
    if t ≠ "" then (.ok t, 1) else (.blockedError, 1)
  else (.ok c.text, 0)

/-! ## Client construction (ETFDBClient init) -/

structure EtfEntry where
  symbol : String
  asset_class : Option String
deriving DecidableEq

structure ClientState where
  ticker : String
  ticker_url : String
  asset_class : Option String
deriving DecidableEq

inductive InitEffect where
  | fetchUrl (url : String)
deriving DecidableEq

def add_meta_information (catalog : List EtfEntry) (ticker : String) : Option String :=
  match catalog.find? (fun e => e.symbol == ticker) with
  | some e => e.asset_class
  | none => none

/-- ETFDBClient init over the identifier catalog, paired with the list of
network fetches it performs: validation happens first and an unknown
uppercased ticker raises before the soup request is issued. -/
def client_init (catalog : List EtfEntry) (ticker : String) :
    Except String ClientState × List InitEffect :=
  if (catalog.map (fun e => e.symbol)).contains (pyUpper ticker) then
    let t := pyUpper ticker
    let url := baseUrl ++ "/etf/" ++ t
    (.ok { ticker := t, ticker_url := url,
           asset_class := add_meta_information catalog t },
     [.fetchUrl (url ++ "/")])
  else
    (.error (ticker ++ " does not exist in ETF Database"), [])

/-! ## Batch enrichment orchestrator (etfpy/scripts/scrape_etfs.py) -/

structure EtfRec where
  symbol : Option String
  asset_class : Option String
  description : Option String
deriving DecidableEq

/-- The per-item task of all-etfs-json: a falsy symbol or any exception in
the client-and-extract chain (the parameter descr) becomes an empty
description, otherwise the extracted description is written in place. -/
def fetch_description (descr : String → Except String String) (etf : EtfRec) : EtfRec :=
  match etf.symbol with
  | none => { etf with description := some "" }
  | some s =>
    if s = "" then { etf with description := some "" }
    else
      match descr s with
      | .ok d => { etf with description := some d }
      | .error _ => { etf with description := some "" }

/-- The enrichment loop of all-etfs-json: the worker pool completes the
per-entry tasks in some order (the order parameter lists entry indices in
completion order) and each task rewrites only its own entry in place. -/
def all_etfs_json (descr : String → Except String String)
    (etfs : List EtfRec) (order : List Nat) : List EtfRec :=
  order.foldl (fun acc i =>
    acc.set i (fetch_description descr ((acc.get? i).getD ⟨none, none, none⟩))) etfs

/-! ## Small helpers over Except -/

def exIsError {α : Type} : Except String α → Bool
  | .error _ => true
  | .ok _ => false

def exIsOk {α : Type} : Except String α → Bool
  | .error _ => false
  | .ok _ => true

/-! ## Dict lemmas -/

def keysOf (d : Dict) : List String := d.map Prod.fst

theorem dictSet_cons_eq (k1 : String) (v1 v : PyVal) (rest : Dict) :
    dictSet ((k1, v1) :: rest) k1 v = (k1, v) :: rest := by
  simp [dictSet]

theorem dictSet_cons_ne (k1 k : String) (v1 v : PyVal) (rest : Dict) (h : ¬k1 = k) :
    dictSet ((k1, v1) :: rest) k v = (k1, v1) :: dictSet rest k v := by
  simp [dictSet, h]

theorem dictGet_dictSet (k : String) (v : PyVal) :
    ∀ (d : Dict) (k' : String),
      dictGet (dictSet d k v) k' = if k' = k then some v else dictGet d k' := by
  intro d
  induction d with
  | nil =>
    intro k'
    simp [dictSet, dictGet]
  | cons p rest ih =>
    intro k'
    obtain ⟨k1, v1⟩ := p
    by_cases h1 : k1 = k
    · subst h1
      rw [dictSet_cons_eq]
      by_cases hk : k' = k1
      · simp [dictGet, hk]
      · simp [dictGet, hk]
    · rw [dictSet_cons_ne k1 k v1 v rest h1]
      by_cases hk : k' = k1
      · have hne : ¬k' = k := by rw [hk]; exact h1
        simp [dictGet, hk, hne, h1]
      · simp [dictGet, hk, ih k']

theorem mem_keysOf_dictSet (k : String) (v : PyVal) :
    ∀ (d : Dict) (a : String),
      a ∈ keysOf (dictSet d k v) ↔ a = k ∨ a ∈ keysOf d := by
  intro d
  induction d with
  | nil =>
    intro a
    simp [dictSet, keysOf]
  | cons p rest ih =>
    intro a
    obtain ⟨k1, v1⟩ := p
    by_cases h1 : k1 = k
    · subst h1
      rw [dictSet_cons_eq]
      simp only [keysOf, List.map_cons, List.mem_cons]
      tauto
    · rw [dictSet_cons_ne k1 k v1 v rest h1]
      simp only [keysOf, List.map_cons, List.mem_cons] at ih ⊢
      rw [ih a]
      tauto

theorem keysNodup_dictSet (k : String) (v : PyVal) :
    ∀ (d : Dict), keysNodup d → keysNodup (dictSet d k v) := by
  intro d
  induction d with
  | nil =>
    intro _
    simp [dictSet, keysNodup]
  | cons p rest ih =>
    intro h
    obtain ⟨k1, v1⟩ := p
    simp only [keysNodup, List.map_cons, List.nodup_cons] at h
    obtain ⟨hk1, hrest⟩ := h
    by_cases h1 : k1 = k
    · subst h1
      rw [dictSet_cons_eq]
      simp only [keysNodup, List.map_cons, List.nodup_cons]
      exact ⟨hk1, hrest⟩
    · rw [dictSet_cons_ne k1 k v1 v rest h1]
      simp only [keysNodup, List.map_cons, List.nodup_cons]
      constructor
      · intro hmem
        have := (mem_keysOf_dictSet k v rest k1).mp hmem
        rcases this with hh | hh
        · exact h1 hh
        · exact hk1 hh
      · exact ih hrest

theorem dictGet_dictUpdate (u : Dict) :
    ∀ (d : Dict) (k : String),
      dictGet (dictUpdate d u) k = optOr (dictGetLast u k) (dictGet d k) := by
  induction u with
  | nil => intro d k; rfl
  | cons p rest ih =>
    intro d k
    obtain ⟨k1, v1⟩ := p
    have step : dictUpdate d ((k1, v1) :: rest) = dictUpdate (dictSet d k1 v1) rest := rfl
    rw [step, ih]
    show optOr (dictGetLast rest k) (dictGet (dictSet d k1 v1) k) =
      optOr (dictGetLast ((k1, v1) :: rest) k) (dictGet d k)
    cases hl : dictGetLast rest k with
    | some v => simp [optOr, dictGetLast, hl]
    | none =>
      simp only [optOr, dictGetLast, hl]
      rw [dictGet_dictSet]
      by_cases hk : k = k1
      · simp [hk]
      · simp [hk]

theorem dictGet_mem (d : Dict) (k : String) (v : PyVal)
    (h : dictGet d k = some v) : k ∈ keysOf d := by
  induction d with
  | nil => simp [dictGet] at h
  | cons p rest ih =>
    obtain ⟨k1, v1⟩ := p
    by_cases hk : k = k1
    · subst hk; simp [keysOf]
    · simp only [dictGet, if_neg hk] at h
      simp [keysOf] at ih ⊢
      right
      exact ih h

theorem dictGetLast_eq_dictGet (d : Dict) (hd : keysNodup d) (k : String) :
    dictGetLast d k = dictGet d k := by
  induction d with
  | nil => rfl
  | cons p rest ih =>
    obtain ⟨k1, v1⟩ := p
    simp only [keysNodup, List.map_cons, List.nodup_cons] at hd
    obtain ⟨hk1, hrest⟩ := hd
    have ihr := ih hrest
    show (match dictGetLast rest k with
      | some v => some v
      | none => if k = k1 then some v1 else none) = dictGet ((k1, v1) :: rest) k
    rw [ihr]
    cases hg : dictGet rest k with
    | some v =>
      have hmem := dictGet_mem rest k v hg
      have hne : ¬k = k1 := by
        intro hh
        subst hh
        exact hk1 hmem
      simp [dictGet, hne, hg]
    | none =>
      by_cases hk : k = k1
      · simp [dictGet, hk]
      · simp [dictGet, hk, hg]

theorem keysNodup_foldl {α : Type} (f : Dict → α → Dict)
    (hf : ∀ d x, keysNodup d → keysNodup (f d x)) :
    ∀ (l : List α) (d : Dict), keysNodup d → keysNodup (l.foldl f d) := by
  intro l
  induction l with
  | nil => intro d hd; exact hd
  | cons x rest ih =>
    intro d hd
    exact ih (f d x) (hf d x hd)

theorem keysNodup_nil : keysNodup [] := by simp [keysNodup]

theorem keysNodup_dictFromPairs (l : List (String × PyVal)) :
    keysNodup (dictFromPairs l) :=
  keysNodup_foldl _ (fun d p h => keysNodup_dictSet p.1 p.2 d h) l [] keysNodup_nil

theorem keysNodup_dictUpdate (d u : Dict) (h : keysNodup d) :
    keysNodup (dictUpdate d u) :=
  keysNodup_foldl _ (fun d p h => keysNodup_dictSet p.1 p.2 d h) u d h

theorem keysNodup_filter (d : Dict) (p : String × PyVal → Bool) (h : keysNodup d) :
    keysNodup (d.filter p) := by
  unfold keysNodup at h ⊢
  exact List.Nodup.sublist (List.Sublist.map Prod.fst (List.filter_sublist d)) h

/-! ## Except lemmas -/

theorem exceptMapM_error {α β : Type} (f : α → Except String β) (l : List α) (a : α)
    (ha : a ∈ l) (herr : exIsError (f a) = true) :
    exIsError (exceptMapM f l) = true := by
  induction l with
  | nil => cases ha
  | cons x rest ih =>
    cases ha with
    | head =>
      cases hfa : f a with
      | error msg => simp only [exceptMapM, hfa]; rfl
      | ok b => rw [hfa] at herr; simp [exIsError] at herr
    | tail _ hmem =>
      have htail := ih hmem
      cases hfx : f x with
      | error msg => simp only [exceptMapM, hfx]; rfl
      | ok b =>
        cases hrest : exceptMapM f rest with
        | error msg => simp only [exceptMapM, hfx, hrest]; rfl
        | ok bs => rw [hrest] at htail; simp [exIsError] at htail

theorem pyDictPairs_error (l : List (List String)) (m : List String)
    (hm : m ∈ l) (hlen : m.length ≠ 2) :
    exIsError (pyDictPairs l) = true := by
  induction l with
  | nil => cases hm
  | cons x rest ih =>
    cases hm with
    | head =>
      match m, hlen with
      | [], _ => rfl
      | [a], _ => rfl
      | [a, b], hlen => simp at hlen
      | a :: b :: c :: r, _ => rfl
    | tail _ hmem =>
      have htail := ih hmem
      match x with
      | [] => rfl
      | [a] => rfl
      | [a, b] =>
        cases hrest : pyDictPairs rest with
        | error msg => simp only [pyDictPairs, hrest]; rfl
        | ok bs => rw [hrest] at htail; simp [exIsError] at htail
      | a :: b :: c :: r => rfl

/-! ## Unique keys of every section record -/

theorem keysNodup_handle_find_all_rows (rows : List Node) :
    keysNodup (handle_find_all_rows rows) :=
  keysNodup_dictFromPairs _

theorem keysNodup_profile_container (doc : Node) :
    keysNodup (profile_container doc) := by
  unfold profile_container
  cases find1 doc ["div"] [.classIs "profile-container"] with
  | none => exact keysNodup_nil
  | some pc => exact keysNodup_dictFromPairs _

theorem keysNodup_trading_data (doc : Node) :
    keysNodup (trading_data doc) := by
  unfold trading_data
  cases find1 doc ["div"] [.classIs "data-trading bar-charts-table"] with
  | none => exact keysNodup_nil
  | some tc => exact keysNodup_filter _ _ (keysNodup_dictFromPairs _)

theorem keysNodup_valuation (doc : Node) :
    keysNodup (valuation doc) := by
  unfold valuation
  split
  · exact keysNodup_nil
  · split
    · exact keysNodup_nil
    · dsimp only
      split
      · exact keysNodup_nil
      · exact keysNodup_foldl _ (fun d x hd => keysNodup_dictSet _ _ d hd) _ _ keysNodup_nil

theorem keysNodup_factset_classification (doc : Node) :
    keysNodup (factset_classification doc) := by
  unfold factset_classification
  cases find1 doc ["div"] [.attrIs "id" "factset-classification"] with
  | none => exact keysNodup_nil
  | some fc => exact keysNodup_handle_find_all_rows _

theorem asset_categories_ok_nodup (doc : Node) (ac : Dict)
    (h : asset_categories doc = .ok ac) : keysNodup ac := by
  unfold asset_categories at h
  split at h
  · simp only [Except.ok.injEq] at h
    subst h
    exact keysNodup_nil
  · dsimp only at h
    split at h
    · simp only [Except.ok.injEq] at h
      subst h
      exact keysNodup_nil
    · split at h
      · exact absurd h (by simp)
      · simp only [Except.ok.injEq] at h
        subst h
        exact keysNodup_handle_find_all_rows _

theorem keysNodup_injectDict (ticker url : String) :
    keysNodup (injectDict ticker url) := by
  simp [keysNodup, injectDict]

theorem keysNodup_pageBase (doc : Node) (ticker url : String) :
    keysNodup (pageBase doc ticker url) :=
  keysNodup_dictUpdate _ _ (keysNodup_injectDict ticker url)

/-! ## Batch orchestrator lemmas -/

theorem all_etfs_json_get? (descr : String → Except String String) :
    ∀ (order : List Nat) (etfs : List EtfRec) (j : Nat), order.Nodup →
      (all_etfs_json descr etfs order).get? j =
        if j ∈ order then (etfs.get? j).map (fetch_description descr)
        else etfs.get? j := by
  intro order
  induction order with
  | nil =>
    intro etfs j _
    simp [all_etfs_json]
  | cons i rest ih =>
    intro etfs j hnd
    simp only [List.nodup_cons] at hnd
    obtain ⟨hni, hndr⟩ := hnd
    have step : all_etfs_json descr etfs (i :: rest) =
        all_etfs_json descr
          (etfs.set i (fetch_description descr ((etfs.get? i).getD ⟨none, none, none⟩)))
          rest := rfl
    rw [step, ih _ j hndr]
    by_cases hjr : j ∈ rest
    · have hji : i ≠ j := fun hh => hni (hh ▸ hjr)
      rw [if_pos hjr, List.get?_set_ne _ _ hji, if_pos (List.mem_cons.mpr (Or.inr hjr))]
    · by_cases hji : j = i
      · subst hji
        rw [if_neg hjr, List.get?_set_eq, if_pos (List.mem_cons.mpr (Or.inl rfl))]
        cases hg : etfs.get? j with
        | none => simp
        | some x => simp [hg]
      · rw [if_neg hjr, List.get?_set_ne _ _ (fun hh => hji hh.symm),
          if_neg (by simp [List.mem_cons, hji, hjr])]

/-- C7: for a catalog of N entries the batch enrichment produces exactly N
entries in the original order and identity whatever the completion order of
the worker tasks, fills only the description field, and turns a per-item
exception or missing symbol into an empty description instead of raising. -/
theorem claim7_batch_enrichment (descr : String → Except String String)
    (etfs : List EtfRec) (order : List Nat)
    (h : order.Perm (List.range etfs.length)) :
    all_etfs_json descr etfs order = etfs.map (fetch_description descr) ∧
    (all_etfs_json descr etfs order).length = etfs.length ∧
    (∀ etf : EtfRec, (fetch_description descr etf).symbol = etf.symbol ∧
      (fetch_description descr etf).asset_class = etf.asset_class ∧
      ∃ dsc, (fetch_description descr etf).description = some dsc) ∧
    (∀ (etf : EtfRec) (s e : String), etf.symbol = some s → s ≠ "" →
      descr s = .error e →
      fetch_description descr etf = { etf with description := some "" }) ∧
    (∀ etf : EtfRec, etf.symbol = none →
      fetch_description descr etf = { etf with description := some "" }) := by
  have hnd : order.Nodup := (List.Perm.nodup_iff h).mpr (List.nodup_range _)
  have hmain : all_etfs_json descr etfs order = etfs.map (fetch_description descr) := by
    apply List.ext
    intro j
    rw [all_etfs_json_get? descr order etfs j hnd]
    by_cases hj : j < etfs.length
    · have hmem : j ∈ order := (List.Perm.mem_iff h).mpr (List.mem_range.mpr hj)
      rw [if_pos hmem, List.get?_map]
    · have hmem : j ∉ order := fun hc => hj (List.mem_range.mp ((List.Perm.mem_iff h).mp hc))
      rw [if_neg hmem, List.get?_eq_none.mpr (Nat.le_of_not_lt hj),
        List.get?_eq_none.mpr (by simpa using Nat.le_of_not_lt hj)]
  refine ⟨hmain, by rw [hmain]; simp, ?_, ?_, ?_⟩
  · intro etf
    cases hs : etf.symbol with
    | none => simp [fetch_description, hs]
    | some s =>
      by_cases hse : s = ""
      · simp [fetch_description, hs, hse]
      · cases hd : descr s with
        | ok d => simp [fetch_description, hs, hse, hd]
        | error e => simp [fetch_description, hs, hse, hd]
  · intro etf s e hs hse hd
    simp [fetch_description, hs, hse, hd]
  · intro etf hs
    simp [fetch_description, hs]

def descr_stub (s : String) : Except String String :=
  if s = "SPY" then .ok "Tracks an index" else .error "boom"

theorem claim7_batch_enrichment_witness :
    all_etfs_json descr_stub
      [⟨some "SPY", some "Equity", none⟩, ⟨some "BAD", none, none⟩, ⟨none, none, none⟩]
      [2, 0, 1] =
      [⟨some "SPY", some "Equity", some "Tracks an index"⟩,
       ⟨some "BAD", none, some ""⟩, ⟨none, none, some ""⟩] := by
  rw [(claim7_batch_enrichment descr_stub
    [⟨some "SPY", some "Equity", none⟩, ⟨some "BAD", none, none⟩, ⟨none, none, none⟩]
    [2, 0, 1] (by decide)).1]
  rfl

/-! ## Fetcher claims -/

/-- C2: every fetched text containing a configured bot-protection marker as
a case-insensitive substring (in particular Pardon Our Interruption) is
classified blocked and escalates to the alternate engine exactly once, and
a text without a marker is returned unchanged with no escalation. -/
theorem claim2_blocked_detection :
    (∀ t : String, containsCI t "Pardon Our Interruption" = true →
      is_blocked_text t = true) ∧
    (∀ c : FetchCase, c.status = 200 → is_blocked_text c.text = true →
      (fetch_html c).2 = 1) ∧
    (∀ c : FetchCase, c.status = 200 → is_blocked_text c.text = false →
      fetch_html c = (.ok c.text, 0)) := by
  refine ⟨?_, ?_, ?_⟩
  · intro t h
    simp [is_blocked_text, block_markers, h]
  · intro c h200 hb
    simp only [fetch_html, h200]
    simp only [ne_eq, not_true_eq_false, if_false, hb, if_true]
    split <;> rfl
  · intro c h200 hnb
    simp [fetch_html, h200, hnb]

theorem claim2_blocked_detection_witness :
    is_blocked_text "etfdb says: Pardon Our Interruption ..." = true ∧
    (fetch_html ⟨200, "OK", "a pardon our INTERRUPTION page", true, 200, "content"⟩).2 = 1 ∧
    fetch_html ⟨200, "OK", "plain etf page", false, 0, ""⟩ = (.ok "plain etf page", 0) :=
  ⟨claim2_blocked_detection.1 _ (by rfl),
   claim2_blocked_detection.2.1 _ rfl (by rfl),
   claim2_blocked_detection.2.2 _ rfl (by rfl)⟩

/-- A blocked primary fetch whose alternate engine answers 200 with a text
that is itself blocked content. -/
def blocked_alt_case : FetchCase :=
  { status := 200, reason := "OK", text := "Pardon Our Interruption",
    altAvailable := true, altStatus := 200,
    altText := "Pardon Our Interruption again" }

/-- C3 counterexample: when the alternate engine returns blocked content,
the fetch does not fail with the blocked error as the claim states; the
blocked alternate text is returned as the result. -/
theorem claim3_counterexample :
    is_blocked_text blocked_alt_case.altText = true ∧
    fetch_html blocked_alt_case = (.ok "Pardon Our Interruption again", 1) ∧
    (fetch_html blocked_alt_case).1 ≠ .blockedError :=
  ⟨rfl, rfl, by decide⟩

/-- C3 amended: on a blocked fetch the call fails with the blocked error
when the alternate engine is unavailable, returns non-200, or returns an
empty text; when the alternate engine returns a 200 response with nonempty
text, that text is returned, even blocked content, and the primary output
is discarded. -/
theorem claim3_amended (c : FetchCase) (h200 : c.status = 200)
    (hb : is_blocked_text c.text = true) :
    ((c.altAvailable = false ∨ c.altStatus ≠ 200 ∨ c.altText = "") →
      fetch_html c = (.blockedError, 1)) ∧
    (c.altAvailable = true → c.altStatus = 200 → c.altText ≠ "" →
      fetch_html c = (.ok c.altText, 1)) := by
  constructor
  · intro hfail
    have ht : try_cloudscraper c = "" := by
      unfold try_cloudscraper
      rcases hfail with h | h | h
      · simp [h]
      · by_cases ha : c.altAvailable
        · simp [ha, h]
        · simp [ha]
      · by_cases ha : c.altAvailable
        · by_cases hs : c.altStatus = 200
          · simp [ha, hs, h]
          · simp [ha, hs]
        · simp [ha]
    simp [fetch_html, h200, hb, ht]
  · intro ha hs hne
    have ht : try_cloudscraper c = c.altText := by
      simp [try_cloudscraper, ha, hs]
    simp [fetch_html, h200, hb, ht, hne]

theorem claim3_amended_witness :
    fetch_html ⟨200, "OK", "a captcha page", false, 0, ""⟩ = (.blockedError, 1) ∧
    fetch_html ⟨200, "OK", "a captcha page", true, 200, "good text"⟩ = (.ok "good text", 1) :=
  ⟨(claim3_amended _ rfl (by rfl)).1 (Or.inl rfl),
   (claim3_amended _ rfl (by rfl)).2 rfl rfl (by decide)⟩

/-! ## Identifier validation claims -/

/-- C5: an identifier whose uppercase form is not in the catalog makes the
client construction fail immediately with the invalid-identifier error, and
the effect trace is empty: no network fetch is attempted. -/
theorem claim5_invalid_identifier (catalog : List EtfEntry) (ticker : String)
    (h : (catalog.map (fun e => e.symbol)).contains (pyUpper ticker) = false) :
    client_init catalog ticker =
      (.error (ticker ++ " does not exist in ETF Database"), []) := by
  unfold client_init
  rw [if_neg (by intro hc; rw [h] at hc; exact Bool.noConfusion hc)]

theorem claim5_invalid_identifier_witness :
    client_init [⟨"SPY", some "Equity"⟩] "QYLD" =
      (.error "QYLD does not exist in ETF Database", []) :=
  claim5_invalid_identifier _ _ (by rfl)

/-- C10: validation is case-insensitive on input; any ticker whose
uppercased form is in the catalog constructs successfully and both the
stored ticker and the constructed address use the uppercased form. -/
theorem claim10_case_insensitive (catalog : List EtfEntry) (ticker : String)
    (h : (catalog.map (fun e => e.symbol)).contains (pyUpper ticker) = true) :
    client_init catalog ticker =
      (.ok { ticker := pyUpper ticker,
             ticker_url := baseUrl ++ "/etf/" ++ pyUpper ticker,
             asset_class := add_meta_information catalog (pyUpper ticker) },
       [.fetchUrl (baseUrl ++ "/etf/" ++ pyUpper ticker ++ "/")]) := by
  unfold client_init
  rw [if_pos h]

theorem claim10_case_insensitive_witness :
    client_init [⟨"SPY", some "Equity"⟩] "spy" =
      (.ok { ticker := "SPY", ticker_url := "https://etfdb.com/etf/SPY",
             asset_class := some "Equity" },
       [.fetchUrl "https://etfdb.com/etf/SPY/"]) :=
  claim10_case_insensitive [⟨"SPY", some "Equity"⟩] "spy" (by rfl)

/-! ## Valuation claim -/

/-- C9: a document whose valuation section holds fewer than two row divs
makes the valuation extractor return the empty record. -/
theorem claim9_valuation_few_rows (doc vc vs : Node)
    (h1 : find1 doc ["div"] [.attrIs "id" "etf-ticker-valuation-dividend_tab"] = some vc)
    (h2 : find1 vc ["div"] [.attrIs "id" "valuation"] = some vs)
    (h3 : (findAll vs ["div"] [.classIs "row"]).length < 2) :
    valuation doc = [] := by
  unfold valuation
  simp only [h1, h2]
  rw [if_pos h3]

def vs9 : Node := el "div" [("id", "valuation")] [el "div" [("class", "row")] [Node.text "x"]]

def vc9 : Node := el "div" [("id", "etf-ticker-valuation-dividend_tab")] [vs9]

def doc9 : Node := el "html" [] [vc9]

theorem claim9_valuation_few_rows_witness :
    (findAll vs9 ["div"] [.classIs "row"]).length = 1 ∧ valuation doc9 = [] :=
  ⟨rfl, claim9_valuation_few_rows doc9 vc9 vs9 rfl rfl (by decide)⟩

/-! ## Record assembler claim -/

/-- C6: the assembled record merges in the fixed order injected pairs, page
body, profile, valuation, trading data, asset categories, classification;
for every key the later section in that order wins, and the merge itself is
a total function that never raises on a collision. -/
theorem claim6_merge_precedence (doc : Node) (ticker url : String) (ac : Dict)
    (hac : asset_categories doc = .ok ac) (k : String) :
    ∃ d, basic_info doc ticker url = .ok d ∧
      dictGet d k =
        optOr (dictGet (factset_classification doc) k)
          (optOr (dictGet ac k)
            (optOr (dictGet (trading_data doc) k)
              (optOr (dictGet (valuation doc) k)
                (optOr (dictGet (profile_container doc) k)
                  (dictGet (pageBase doc ticker url) k))))) ∧
      dictGet (pageBase doc ticker url) k =
        optOr (dictGetLast (pageBodyPairs doc) k)
          (dictGet (injectDict ticker url) k) := by
  have e : basic_info doc ticker url = .ok
      (dictUpdate (dictUpdate (dictUpdate (dictUpdate (dictUpdate
        (pageBase doc ticker url) (profile_container doc)) (valuation doc))
        (trading_data doc)) ac) (factset_classification doc)) := by
    unfold basic_info
    rw [hac]
    rfl
  refine ⟨_, e, ?_, ?_⟩
  · rw [dictGet_dictUpdate,
      dictGetLast_eq_dictGet _ (keysNodup_factset_classification doc),
      dictGet_dictUpdate,
      dictGetLast_eq_dictGet _ (asset_categories_ok_nodup doc ac hac),
      dictGet_dictUpdate,
      dictGetLast_eq_dictGet _ (keysNodup_trading_data doc),
      dictGet_dictUpdate,
      dictGetLast_eq_dictGet _ (keysNodup_valuation doc),
      dictGet_dictUpdate,
      dictGetLast_eq_dictGet _ (keysNodup_profile_container doc)]
  · show dictGet (dictUpdate (injectDict ticker url) (pageBodyPairs doc)) k = _
    rw [dictGet_dictUpdate]

/-- A page carrying the key Issuer both in the profile container and in the
classification table, with different values. -/
def docB : Node :=
  el "html" []
    [el "div" [("class", "profile-container")]
      [el "div" [("class", "row")]
        [el "span" [] [Node.text "Issuer"], el "span" [] [Node.text "AAA"]]],
     el "div" [("id", "factset-classification")]
      [el "tr" [] [el "span" [] [Node.text "Issuer"], el "span" [] [Node.text "BBB"]]]]

theorem claim6_merge_precedence_witness :
    ∃ d, basic_info docB "SPY" "https://etfdb.com/etf/SPY" = .ok d ∧
      dictGet d "Issuer" = some (.s "BBB") := by
  obtain ⟨d, hd, hk, -⟩ :=
    claim6_merge_precedence docB "SPY" "https://etfdb.com/etf/SPY" [] (by rfl) "Issuer"
  exact ⟨d, hd, by rw [hk]; rfl⟩

/-! ## Extractor fault-tolerance claim -/

theorem exIsError_bind {α β : Type} (e : Except String α) (f : α → Except String β)
    (h : exIsError e = true) : exIsError (e.bind f) = true := by
  cases e with
  | error msg => rfl
  | ok a => exact absurd h (by simp [exIsError])

def parse_series_stub : String → Except String (List (String × Int)) :=
  fun _ => .ok []

def chartBad : Node :=
  el "table" [("class", "chart base-table"), ("data-chart-series", "x")] []

def docExpoBad : Node := el "html" [] [chartBad]

def docExpoBad2 : Node :=
  el "html" [] [el "table" [("class", "chart base-table"), ("data-title", "Sector")] []]

def tcVol : Node :=
  el "div" [("id", "technicals-collapse")]
    [el "div" [("class", "row relative-metric")] [Node.text "Beta"]]

def docVolBad : Node := el "html" [] [tcVol]

def tcTech : Node :=
  el "div" [("id", "technicals-collapse")]
    [el "ul" [("class", "list-unstyled")] [el "li" [] [Node.text "RSI"]]]

def docTechBad : Node := el "html" [] [tcTech]

def tbAsset : Node :=
  el "div" [("id", "etf-ticker-body")] [el "div" [("class", "ticker-assets")] []]

def docAssetBad : Node := el "html" [] [tbAsset]

def docHoldBad : Node :=
  el "html" [] [el "div" [("id", "holding_section")]
    [el "table" [] [el "tbody" []
      [el "tr" [] [el "td" [] [el "a" [] [Node.text "AAPL"]]]]]]]

/-- C1 counterexample: the section extractors do raise on these malformed
documents. Exposure raises on a chart table without a data-title attribute
and on one without a data-chart-series attribute; volatility and technicals
raise when a list item splits into other than two fields; asset categories
raises when exactly one assets container is present; holdings raises when a
row anchor has no href. -/
theorem claim1_counterexample :
    exIsError (exposure parse_series_stub docExpoBad) = true ∧
    exIsError (exposure parse_series_stub docExpoBad2) = true ∧
    exIsError (volatility docVolBad) = true ∧
    exIsError (technicals docTechBad) = true ∧
    exIsError (asset_categories docAssetBad) = true ∧
    exIsError (holdings docHoldBad) = true :=
  ⟨rfl, rfl, rfl, rfl, rfl, rfl⟩

/-- C1 amended: the profile, trading stats, valuation, classification and
holdings extractors return empty records when their containers are missing,
exposure returns its no-data sentinel when no chart table is present, and
the description extractor returns the empty string on a bare document; but
the extractors are not uniformly exception-free: exposure raises when some
chart table lacks a data-title attribute, volatility and technicals raise
when a list item splits into other than two fields, and asset categories
raises when exactly one assets container is present. -/
theorem claim1_amended :
    (∀ doc : Node, find1 doc ["div"] [.classIs "profile-container"] = none →
      profile_container doc = []) ∧
    (∀ doc : Node, find1 doc ["div"] [.classIs "data-trading bar-charts-table"] = none →
      trading_data doc = []) ∧
    (∀ doc : Node, find1 doc ["div"] [.attrIs "id" "etf-ticker-valuation-dividend_tab"] = none →
      valuation doc = []) ∧
    (∀ doc : Node, find1 doc ["div"] [.attrIs "id" "factset-classification"] = none →
      factset_classification doc = []) ∧
    (∀ doc : Node, find1 doc ["div"] [.attrIs "id" "holding_section"] = none →
      holdings doc = .ok []) ∧
    (∀ (ps : String → Except String (List (String × Int))) (doc : Node),
      findAll doc ["table"] [.classIs "chart base-table"] = [] →
      exposure ps doc =
        .ok [("Data", .s "Region, country, sector breakdown data not found")]) ∧
    (∀ (ps : String → Except String (List (String × Int))) (doc c : Node),
      c ∈ findAll doc ["table"] [.classIs "chart base-table"] →
      c.getAttr "data-title" = none →
      exIsError (exposure ps doc) = true) ∧
    (∀ (doc tc : Node) (m : List String),
      find1 doc ["div"] [.attrIs "id" "technicals-collapse"] = some tc →
      m ∈ volatility_metrics tc → m.length ≠ 2 →
      exIsError (volatility doc) = true) ∧
    (∀ (doc tc : Node) (m : List String),
      find1 doc ["div"] [.attrIs "id" "technicals-collapse"] = some tc →
      m ∈ technicals_rows tc → m.length ≠ 2 →
      exIsError (technicals doc) = true) ∧
    (∀ (doc tb : Node), ticker_body_of doc = some tb →
      (findAll tb ["div"] [.classIs "ticker-assets"]).length = 1 →
      exIsError (asset_categories doc) = true) ∧
    (∀ s : String, description (Node.text s) = "") := by
  refine ⟨?_, ?_, ?_, ?_, ?_, ?_, ?_, ?_, ?_, ?_, ?_⟩
  · intro doc h
    unfold profile_container
    rw [h]
  · intro doc h
    unfold trading_data
    rw [h]
  · intro doc h
    unfold valuation
    rw [h]
  · intro doc h
    unfold factset_classification
    rw [h]
  · intro doc h
    unfold holdings
    rw [h]
  · intro ps doc h
    unfold exposure
    rw [h]
    rfl
  · intro ps doc c hc ht
    cases hch : findAll doc ["table"] [.classIs "chart base-table"] with
    | nil => rw [hch] at hc; cases hc
    | cons a rest =>
      rw [hch] at hc
      have herr : exIsError (exceptMapM (fun x =>
          match Node.getAttr x "data-title" with
          | none => Except.error "AttributeError"
          | some t => Except.ok (pyReplace t "<br>" " ")) (a :: rest)) = true :=
        exceptMapM_error _ _ c hc (by rw [ht]; rfl)
      unfold exposure
      rw [hch]
      dsimp only
      rw [if_neg (by simp)]
      exact exIsError_bind _ _ herr
  · intro doc tc m htc hm hlen
    unfold volatility
    simp only [htc]
    exact exIsError_bind _ _ (pyDictPairs_error _ m hm hlen)
  · intro doc tc m htc hm hlen
    unfold technicals
    simp only [htc]
    exact exIsError_bind _ _ (pyDictPairs_error _ m hm hlen)
  · intro doc tb htb hlen
    unfold asset_categories
    simp only [htb]
    cases hfa : findAll tb ["div"] [.classIs "ticker-assets"] with
    | nil => rw [hfa] at hlen; simp at hlen
    | cons a r =>
      rw [hfa] at hlen
      simp only [List.length_cons] at hlen
      have hr : r = [] := List.length_eq_zero.mp (by omega)
      subst hr
      rfl
  · intro s
    rfl

theorem claim1_amended_witness :
    profile_container (Node.text "w") = [] ∧
    valuation (Node.text "w") = [] ∧
    exposure parse_series_stub (Node.text "w") =
      .ok [("Data", .s "Region, country, sector breakdown data not found")] ∧
    exIsError (exposure parse_series_stub docExpoBad) = true ∧
    exIsError (volatility docVolBad) = true ∧
    exIsError (asset_categories docAssetBad) = true ∧
    description (Node.text "w") = "" := by
  obtain ⟨h1, h2, h3, h4, h5, h6, h7, h8, h9, h10, h11⟩ := claim1_amended
  refine ⟨h1 (Node.text "w") rfl, h3 (Node.text "w") rfl,
    h6 parse_series_stub (Node.text "w") rfl,
    h7 parse_series_stub docExpoBad chartBad ?_ rfl,
    h8 docVolBad tcVol ["Beta"] rfl ?_ (by decide),
    h10 docAssetBad tbAsset rfl rfl,
    h11 "w"⟩
  · exact List.mem_singleton_self chartBad
  · exact List.mem_singleton_self ["Beta"]

/-! ## Holdings claim -/

theorem append_ne_of_ne_empty (a b : String) (h : b ≠ "") : a ++ b ≠ a := by
  intro hh
  apply h
  cases a with
  | mk da =>
    cases b with
    | mk db =>
      have hd : da ++ db = da := congrArg String.data hh
      have hl := congrArg List.length hd
      simp only [List.length_append] at hl
      have hnil : db = [] := List.length_eq_zero.mp (by omega)
      rw [hnil]

def mk_holdings_row (sym nm share href : String) : Node :=
  el "tr" [] [el "td" [] [el "a" [("href", href)] [Node.text sym]],
    el "td" [] [Node.text nm], el "td" [] [Node.text share]]

def mk_holdings_doc (rows : List Node) : Node :=
  el "html" [] [el "div" [("id", "holding_section")]
    [el "table" [] [el "tbody" [] rows]]]

/-- The record the holdings extractor produces for one well-formed row; the
name column is stored under the key Holding. -/
def holdings_rec (sym nm share url : String) : Dict :=
  [("Symbol", .s sym), ("Holding", .s nm), ("Share", .s share), ("Url", .s url)]

theorem holdings_row_eval (sym nm share href : String)
    (hc : containsSub href baseUrl = false) (hne : href ≠ "") :
    holdings_row (mk_holdings_row sym nm share href) =
      .ok (holdings_rec sym nm share (baseUrl ++ href)) := by
  have e1 : row_href (mk_holdings_row sym nm share href) = Except.ok href := rfl
  unfold holdings_row
  simp only [e1]
  simp only [hc, Bool.false_eq_true, if_false]
  simp only [eq_false (append_ne_of_ne_empty baseUrl href hne), if_false]
  rfl

def holdings3_doc : Node :=
  mk_holdings_doc
    [mk_holdings_row "AAPL" "Apple" "5.2%" "/stock/AAPL",
     mk_holdings_row "MSFT" "Microsoft" "4.9%" "/stock/MSFT",
     mk_holdings_row "AMZN" "Amazon" "3.4%" "/stock/AMZN"]

/-- C4 counterexample: on a well-formed three row holdings table the
extractor produces records keyed Symbol, Holding, Share and Url; there is
no key Name as the claim states. And a row-level failure does not always
degrade to an empty result: a row anchor without an href raises. -/
theorem claim4_counterexample :
    holdings holdings3_doc = .ok
      [holdings_rec "AAPL" "Apple" "5.2%" "https://etfdb.com/stock/AAPL",
       holdings_rec "MSFT" "Microsoft" "4.9%" "https://etfdb.com/stock/MSFT",
       holdings_rec "AMZN" "Amazon" "3.4%" "https://etfdb.com/stock/AMZN"] ∧
    dictGet (holdings_rec "AAPL" "Apple" "5.2%" "https://etfdb.com/stock/AAPL") "Name" =
      none ∧
    dictGet (holdings_rec "AAPL" "Apple" "5.2%" "https://etfdb.com/stock/AAPL") "Holding" =
      some (.s "Apple") ∧
    exIsError (holdings docHoldBad) = true :=
  ⟨rfl, rfl, rfl, rfl⟩

/-- C4 amended: a holdings table of three rows each carrying ticker, name,
share and a relative link yields exactly three ordered records with the
keys Symbol, Holding, Share and Url (the name column key is Holding, not
Name), Url being made absolute; a missing holdings structure yields the
empty result, while a row whose anchor lacks an href raises instead of
degrading. -/
theorem claim4_amended :
    (∀ s1 n1 sh1 h1 s2 n2 sh2 h2 s3 n3 sh3 h3 : String,
      containsSub h1 baseUrl = false → h1 ≠ "" →
      containsSub h2 baseUrl = false → h2 ≠ "" →
      containsSub h3 baseUrl = false → h3 ≠ "" →
      holdings (mk_holdings_doc
        [mk_holdings_row s1 n1 sh1 h1, mk_holdings_row s2 n2 sh2 h2,
         mk_holdings_row s3 n3 sh3 h3]) =
        .ok [holdings_rec s1 n1 sh1 (baseUrl ++ h1),
             holdings_rec s2 n2 sh2 (baseUrl ++ h2),
             holdings_rec s3 n3 sh3 (baseUrl ++ h3)]) ∧
    (∀ doc : Node, find1 doc ["div"] [.attrIs "id" "holding_section"] = none →
      holdings doc = .ok []) := by
  constructor
  · intro s1 n1 sh1 h1 s2 n2 sh2 h2 s3 n3 sh3 h3 hc1 hne1 hc2 hne2 hc3 hne3
    have hrows : holdings (mk_holdings_doc
        [mk_holdings_row s1 n1 sh1 h1, mk_holdings_row s2 n2 sh2 h2,
         mk_holdings_row s3 n3 sh3 h3]) =
        [mk_holdings_row s1 n1 sh1 h1, mk_holdings_row s2 n2 sh2 h2,
         mk_holdings_row s3 n3 sh3 h3].mapM holdings_row := rfl
    rw [hrows, List.mapM_cons, holdings_row_eval s1 n1 sh1 h1 hc1 hne1,
      List.mapM_cons, holdings_row_eval s2 n2 sh2 h2 hc2 hne2,
      List.mapM_cons, holdings_row_eval s3 n3 sh3 h3 hc3 hne3, List.mapM_nil]
    rfl
  · intro doc h
    unfold holdings
    rw [h]

theorem claim4_amended_witness :
    holdings holdings3_doc = .ok
      [holdings_rec "AAPL" "Apple" "5.2%" "https://etfdb.com/stock/AAPL",
       holdings_rec "MSFT" "Microsoft" "4.9%" "https://etfdb.com/stock/MSFT",
       holdings_rec "AMZN" "Amazon" "3.4%" "https://etfdb.com/stock/AMZN"] :=
  claim4_amended.1 "AAPL" "Apple" "5.2%" "/stock/AAPL"
    "MSFT" "Microsoft" "4.9%" "/stock/MSFT"
    "AMZN" "Amazon" "3.4%" "/stock/AMZN"
    rfl (by decide) rfl (by decide) rfl (by decide)

/-! ## Description claim -/

theorem firstCandText_none (l : List (Option Node)) (h : ∀ x ∈ l, x = none) :
    firstCandText l = none := by
  induction l with
  | nil => rfl
  | cons x rest ih =>
    have hx := h x (List.mem_cons_self x rest)
    subst hx
    exact ih (fun y hy => h y (List.mem_cons_of_mem _ hy))

theorem descHeadingScan_none (l : List Node) (h : ∀ n ∈ l, isDescHeading n = false) :
    descHeadingScan l = none := by
  induction l with
  | nil => rfl
  | cons n rest ih =>
    have hn := h n (List.mem_cons_self n rest)
    unfold descHeadingScan
    rw [if_neg (by simp [hn])]
    exact ih (fun y hy => h y (List.mem_cons_of_mem _ hy))

theorem descMetaLoop_none (l : List (Option Node))
    (h : ∀ x ∈ l, x.bind metaContentOf = none) : descMetaLoop l = none := by
  induction l with
  | nil => rfl
  | cons x rest ih =>
    cases x with
    | none => exact ih (fun y hy => h y (List.mem_cons_of_mem _ hy))
    | some m =>
      have hm : metaContentOf m = none := h (some m) (List.mem_cons_self _ _)
      unfold descMetaLoop
      rw [hm]
      exact ih (fun y hy => h y (List.mem_cons_of_mem _ hy))

/-- C8: the description extractor cascades. A present first candidate
container with nonempty text is returned directly; when every candidate
container is absent and no heading mentions description, the content of the
meta description tag is returned; and when the meta stage finds nothing
either, the result is the empty string. -/
theorem claim8_description_cascade :
    (∀ doc c : Node, find1 doc ["div"] [.attrIs "id" "full-content"] = some c →
      getTextSep c " " ≠ "" → description doc = getTextSep c " ") ∧
    (∀ (doc m : Node) (t : String),
      (∀ x ∈ descCandidates doc, x = none) →
      (∀ n ∈ descendantsOf doc, isDescHeading n = false) →
      find1 doc ["meta"] [.attrIs "name" "description"] = some m →
      metaContentOf m = some t →
      description doc = t) ∧
    (∀ doc : Node,
      (∀ x ∈ descCandidates doc, x = none) →
      (∀ n ∈ descendantsOf doc, isDescHeading n = false) →
      (∀ x ∈ descMetas doc, x.bind metaContentOf = none) →
      description doc = "") := by
  refine ⟨?_, ?_, ?_⟩
  · intro doc c hf hne
    have hcand : firstCandText (descCandidates doc) = some (getTextSep c " ") := by
      unfold descCandidates
      rw [hf]
      unfold firstCandText
      rw [if_neg hne]
    unfold description
    rw [hcand]
  · intro doc m t hcand hhead hfm hmc
    have hml : descMetaLoop (descMetas doc) = some t := by
      unfold descMetas
      rw [hfm]
      unfold descMetaLoop
      rw [hmc]
    unfold description
    rw [firstCandText_none _ hcand, descHeadingScan_none _ hhead, hml]
    rfl
  · intro doc hcand hhead hmeta
    unfold description
    rw [firstCandText_none _ hcand, descHeadingScan_none _ hhead,
      descMetaLoop_none _ hmeta]
    rfl

def mMeta : Node :=
  el "meta" [("name", "description"), ("content", "Tracks large-cap equities")] []

def docM : Node :=
  el "html" [] [el "head" [] [mMeta],
    el "body" [] [el "p" [] [Node.text "hello"]]]

theorem claim8_description_cascade_witness :
    description docM = "Tracks large-cap equities" := by
  refine claim8_description_cascade.2.1 docM mMeta "Tracks large-cap equities"
    ?_ ?_ rfl rfl
  · have hred : descCandidates docM = [none, none, none, none, none, none, none] := rfl
    rw [hred]
    intro x hx
    simp at hx
    exact hx
  · have hred : descendantsOf docM =
        [el "head" [] [mMeta], mMeta,
         el "body" [] [el "p" [] [Node.text "hello"]],
         el "p" [] [Node.text "hello"], Node.text "hello"] := rfl
    rw [hred]
    intro n hn
    simp only [List.mem_cons, List.not_mem_nil, or_false] at hn
    rcases hn with rfl | rfl | rfl | rfl | rfl <;> rfl
